import Mathlib

/-!
Verification of the volt plugin manager (vim-volt/go-volt) against its
natural-language specification.

The Go sources are shallowly embedded: pure string manipulation is modelled
on `List Char` (a Go `string` is a byte/rune sequence; all inputs of
interest here are ASCII), fallible functions return an explicit result
type, and the effectful command bodies are modelled as pure state
transformers on the data they mutate (the in-memory lock document, the
per-repository destination directory contents, the transaction sentinel
file).  `filepath.ToSlash` is the identity on POSIX, which is the platform
modelled throughout.  Definitions come first, then the lemmas and the
per-claim theorems.
-/

/-! ## String primitives (Go `strings` package operations used by pathutil) -/

/-- One step of splitting on a slash, used right-to-left: a `/` opens a new
leading segment, any other character is prepended to the current leading
segment.  The accumulator is never empty. -/
def splitStep (c : Char) (acc : List (List Char)) : List (List Char) :=
  if c = '/' then [] :: acc else (c :: acc.headI) :: acc.tail

/-- Go `strings.Split(s, "/")`.  On the empty string it returns `[""]`,
like Go. -/
def splitSlash (s : List Char) : List (List Char) :=
  s.foldr splitStep [[]]

/-- Go `strings.Join(l, "/")`. -/
def joinSlash : List (List Char) → List Char
  | [] => []
  | [s] => s
  | s :: rest => s ++ '/' :: joinSlash rest

/-- Go `strings.TrimSuffix(s, suff)`: removes one trailing occurrence of
`suff` when present, otherwise returns `s` unchanged. -/
def trimSuffix (s suff : List Char) : List Char :=
  if suff.isSuffixOf s then s.take (s.length - suff.length) else s

/-- The suffix `.git` trimmed by `NormalizeRepos`. -/
def gitSuffix : List Char := ['.', 'g', 'i', 't']

/-- Outcome of a Go function returning `(string, error)`, extended with the
runtime panic that an out-of-range slice raises. -/
inductive GoResult
  | ok (s : List Char)
  | error (msg : List Char)
  | goPanic
deriving DecidableEq

/-- `pathutil.NormalizeRepos` (src/unnamed/part_000, lines 15-29), after the
identity `filepath.ToSlash`:

```go
paths := strings.Split(rawReposPath, "/")
if len(paths) == 3 { return strings.TrimSuffix(rawReposPath, ".git"), nil }
if len(paths) == 2 { return strings.TrimSuffix("github.com/"+rawReposPath, ".git"), nil }
if paths[0] == "https:" || paths[0] == "http:" || paths[0] == "git:" {
    reposPath := strings.Join(paths[len(paths)-3:], "/")
    return strings.TrimSuffix(reposPath, ".git"), nil
}
return "", errors.New("invalid format of repository: " + rawReposPath)
```

`paths[len(paths)-3:]` panics in Go when `len(paths) < 3`; that branch is
reachable exactly for the inputs `https:`, `http:`, `git:` (one segment
equal to a scheme token), modelled as `GoResult.goPanic`. -/
def normalizeRepos (raw : List Char) : GoResult :=
  let paths := splitSlash raw
  if paths.length = 3 then
    .ok (trimSuffix raw gitSuffix)
  else if paths.length = 2 then
    .ok (trimSuffix ("github.com/".toList ++ raw) gitSuffix)
  else if paths.headI = "https:".toList ∨ paths.headI = "http:".toList ∨
      paths.headI = "git:".toList then
    if 3 ≤ paths.length then
      .ok (trimSuffix (joinSlash (paths.drop (paths.length - 3))) gitSuffix)
    else
      .goPanic
  else
    .error ("invalid format of repository: ".toList ++ raw)

/-- The first segment of a slash-split being one of the three scheme tokens,
as tested by the third branch of `NormalizeRepos`. -/
def isSchemeSeg (s : List Char) : Bool :=
  s = "https:".toList || s = "http:".toList || s = "git:".toList

/-! ## Pack-directory encoding (`pathutil.PackReposPathOf`) -/

/-- The directory-name encoding of `pathutil.PackReposPathOf`
(src/unnamed/part_000, lines 106-109):
`strings.NewReplacer("_", "__", "/", "_").Replace(reposPath)`.
Both patterns are single characters, so the single-pass replacer is a
character-by-character map: `_` becomes `__` and `/` becomes `_`. -/
def packEncode : List Char → List Char
  | [] => []
  | '_' :: t => '_' :: '_' :: packEncode t
  | '/' :: t => '_' :: packEncode t
  | c :: t => c :: packEncode t

/-- Modelled from the spec: "The pack-directory encoding doubles each
underscore and replaces `/` with `_`, so the decoding is unambiguous."
The decoder itself (`pathutil.UnpackPathOf`, referenced from
src/cmd/builder/symlink.go) is not among the provided sources, so a
decoder is constructed here: a pair of underscores decodes to `_`, a
single underscore decodes to `/`. -/
def packDecode : List Char → List Char
  | [] => []
  | '_' :: '_' :: t => '_' :: packDecode t
  | '_' :: t => '/' :: packDecode t
  | c :: t => c :: packDecode t

/-- Repo paths on which the pack encoding is unambiguous: no `/` is
immediately followed by `_` or by another `/`.  Canonical
`site/user/name` paths violate this exactly when a segment is empty or
starts with an underscore. -/
def slashOk : List Char → Bool
  | '/' :: '_' :: _ => false
  | '/' :: '/' :: _ => false
  | _ :: t => slashOk t
  | [] => true

/-! ## Lock document model (`lockjson` package) -/

/-- `lockjson.ReposType`. -/
inductive ReposType
  | git
  | static
deriving DecidableEq

/-- One element of `lock.json`'s `repos` array (`lockjson.Repos`), restricted
to the fields the verified commands read or write. -/
structure ReposEntry where
  rtype : ReposType
  trxID : Nat
  path : String
  version : String
deriving DecidableEq

/-- One element of `lock.json`'s `profiles` array (`lockjson.Profile`). -/
structure ProfileEntry where
  name : String
  reposPath : List String
  useVimrc : Bool
  useGvimrc : Bool
deriving DecidableEq

/-- The lock document (`lockjson.LockJSON`). -/
structure LockJSON where
  trxID : Nat
  currentProfileName : String
  repos : List ReposEntry
  profiles : List ProfileEntry
deriving DecidableEq

/-- Modelled from the spec: `lockjson.Repos.FindByPath` (the `lockjson`
package is not among the provided sources; callers use it as "first entry
whose `path` field equals the argument, error when absent"). -/
def findByPath : List ReposEntry → String → Option ReposEntry
  | [], _ => none
  | r :: rest, p => if r.path = p then some r else findByPath rest p

/-- Modelled from the spec: `lockjson.Profiles.FindByName` — first profile
with the given name. -/
def findProfileByName : List ProfileEntry → String → Option ProfileEntry
  | [], _ => none
  | p :: rest, n => if p.name = n then some p else findProfileByName rest n

/-- Modelled from the spec: `lockjson.Profiles.FindIndexByName` — index of the
first profile with the given name (`-1`, here `none`, when absent). -/
def findProfileIndexByName : List ProfileEntry → String → Option Nat
  | [], _ => none
  | p :: rest, n =>
    if p.name = n then some 0
    else (findProfileIndexByName rest n).map (· + 1)

/-- In-place mutation of the first entry with the given path, as performed
through the pointer returned by `FindByPath`: set its `trx_id` and
`version`. -/
def setReposVersion : List ReposEntry → String → Nat → String → List ReposEntry
  | [], _, _, _ => []
  | r :: rest, p, t, v =>
    if r.path = p then { r with trxID := t, version := v } :: rest
    else r :: setReposVersion rest p t v

/-- Replace the first profile with the given name by `modify` of it, as the
Go code does through the pointer returned by `FindByName`. -/
def modifyProfileByName (profiles : List ProfileEntry) (profileName : String)
    (modify : ProfileEntry → ProfileEntry) : List ProfileEntry :=
  match profiles with
  | [] => []
  | p :: rest =>
    if p.name = profileName then modify p :: rest
    else p :: modifyProfileByName rest profileName modify

/-- Append `path` to the named profile's `repos_path` unless already present
(`profile.ReposPath.Contains` check in `getCmd.updateReposVersion`,
src/unnamed/part_001 lines 952-956).  The profile pointer in the Go code is
the current profile found by `doGet` via `FindByName`, i.e. the first
profile with that name. -/
def addPathToProfile (profiles : List ProfileEntry) (profileName path : String) :
    List ProfileEntry :=
  modifyProfileByName profiles profileName fun p =>
    if path ∈ p.reposPath then p
    else { p with reposPath := p.reposPath ++ [path] }

/-- `getCmd.updateReposVersion` (src/unnamed/part_001, lines 925-958): stamp
the entry for `path` with the document's current `trx_id` and the new
`version`, appending a fresh entry when absent, and add `path` to the
current profile's `repos_path` when absent. -/
def updateReposVersion (lock : LockJSON) (path : String) (rtype : ReposType)
    (version : String) : LockJSON :=
  match findByPath lock.repos path with
  | none =>
    { lock with
      repos := lock.repos ++
        [{ rtype := rtype, trxID := lock.trxID, path := path, version := version }],
      profiles := addPathToProfile lock.profiles lock.currentProfileName path }
  | some _ =>
    { lock with
      repos := setReposVersion lock.repos path lock.trxID version,
      profiles := addPathToProfile lock.profiles lock.currentProfileName path }

/-- The result one `getParallel` work unit reports back to `doGet`. -/
structure GetWorkResult where
  path : String
  rtype : ReposType
  hash : String
  failed : Bool
deriving DecidableEq

/-- The lock-document effect of `getCmd.doGet` (src/unnamed/part_001, lines
483-565): `lockJSON.TrxID++` once after the transaction begins, then for
every non-failed work-unit result `updateReposVersion` stamps the entry.
Failed results update nothing. -/
def doGetLock (lock : LockJSON) (results : List GetWorkResult) : LockJSON :=
  let lock1 := { lock with trxID := lock.trxID + 1 }
  results.foldl
    (fun l r => if r.failed then l else updateReposVersion l r.path r.rtype r.hash)
    lock1

/-- Modelled from the spec: `lockjson.Repos.RemoveAllByPath` — delete every
entry whose path equals the argument ("Delete repos path from
lockJSON.Repos[i]"). -/
def removeAllByPath (repos : List ReposEntry) (path : String) : List ReposEntry :=
  repos.filter (fun r => r.path ≠ path)

/-- Modelled from the spec: `lockjson.Profiles.RemoveAllReposPath` — delete
the path from every profile's `repos_path`. -/
def removeAllReposPath (profiles : List ProfileEntry) (path : String) :
    List ProfileEntry :=
  profiles.map (fun p => { p with reposPath := p.reposPath.filter (· ≠ path) })

/-- The lock-document effect of `rmCmd.doRemove` (src/cmd/rm.go, lines
106-161): `lockJSON.TrxID++` once, then for each repository remove its
entry and its occurrences in every profile.  (Directory and plugconf
removal touch the filesystem, not the lock document.) -/
def doRemoveLock (lock : LockJSON) (paths : List String) : LockJSON :=
  let lock1 := { lock with trxID := lock.trxID + 1 }
  paths.foldl
    (fun l p =>
      { l with
        repos := removeAllByPath l.repos p,
        profiles := removeAllReposPath l.profiles p })
    lock1

/-- The lock-document effect of `profileCmd.transactProfile`
(src/unnamed/part_001, lines 1435-1457): fail when the profile is absent,
otherwise apply `modifyProfile` to it and write the document back.  Note
that, unlike `doGet` and `doRemove`, it never touches `TrxID`. -/
def transactProfileLock (lock : LockJSON) (profileName : String)
    (modify : ProfileEntry → ProfileEntry) : Option LockJSON :=
  match findProfileByName lock.profiles profileName with
  | none => none
  | some _ => some { lock with profiles := modifyProfileByName lock.profiles profileName modify }

/-- The lock-document effect of `profileCmd.doSet` (src/unnamed/part_001,
lines 1106-1156): error when the requested profile is already current or
does not exist, otherwise switch `current_profile`. -/
def doSetLock (lock : LockJSON) (profileName : String) : Option LockJSON :=
  if lock.currentProfileName = profileName then none
  else
    match findProfileByName lock.profiles profileName with
    | none => none
    | some _ => some { lock with currentProfileName := profileName }

/-- The lock-document effect of `profileCmd.doDestroy` (src/unnamed/part_001,
lines 1264-1308): error when the requested profile is current or does not
exist, otherwise delete it from the profiles array
(`append(profiles[:index], profiles[index+1:]...)`). -/
def doDestroyLock (lock : LockJSON) (profileName : String) : Option LockJSON :=
  if lock.currentProfileName = profileName then none
  else
    match findProfileIndexByName lock.profiles profileName with
    | none => none
    | some i => some { lock with profiles := lock.profiles.eraseIdx i }

/-- The lock-document effect of `profileCmd.doNew` (src/unnamed/part_001,
lines 1218-1262): error when a profile of that name already exists,
otherwise append a fresh profile with an empty `repos_path` and both rc
flags set, and write the document. -/
def doNewLock (lock : LockJSON) (profileName : String) : Option LockJSON :=
  match findProfileByName lock.profiles profileName with
  | some _ => none
  | none =>
    some { lock with profiles := lock.profiles ++
      [{ name := profileName, reposPath := [], useVimrc := true, useGvimrc := true }] }

/-- The lock-document effect of `profileCmd.doUse` (src/unnamed/part_001,
lines 1459-1547) after argument validation (`rcName` is `vimrc` or
`gvimrc`): error when the profile is absent, otherwise set the requested rc
flag on it through the `FindByName` pointer.  The Go code writes the
document only when the flag actually changed; when it did not, the document
on disk is identical to this result anyway, and in neither case is `TrxID`
touched. -/
def doUseLock (lock : LockJSON) (profileName rcName : String) (value : Bool) :
    Option LockJSON :=
  match findProfileByName lock.profiles profileName with
  | none => none
  | some _ =>
    some { lock with profiles :=
      modifyProfileByName lock.profiles profileName fun p =>
        if rcName = "vimrc" then { p with useVimrc := value }
        else { p with useGvimrc := value } }

/-- The lock-document invariant of §3: a profile named `current_profile`
exists. -/
def hasCurrentProfile (lock : LockJSON) : Bool :=
  lock.profiles.any (fun p => p.name = lock.currentProfileName)

/-! ## `getCmd.installPlugin` status computation (src/unnamed/part_001, lines 628-778) -/

/-- The status-line glyphs of `getCmd` (src/unnamed/part_001, lines 594-599). -/
def statusHeadFailed : String := "!"

/-- Glyph for "no change". -/
def statusHeadNoChange : String := "#"

/-- Glyph for "installed". -/
def statusHeadInstalled : String := "+"

/-- Glyph for "upgraded". -/
def statusHeadUpgraded : String := "*"

/-- `fmtInstallFailed = "%s %s > install failed > %s"`. -/
def fmtInstallFailed (head path msg : String) : String :=
  head ++ " " ++ path ++ " > install failed > " ++ msg

/-- `fmtUpgradeFailed = "%s %s > upgrade failed > %s"`. -/
def fmtUpgradeFailed (head path msg : String) : String :=
  head ++ " " ++ path ++ " > upgrade failed > " ++ msg

/-- `fmtNoChange = "%s %s > no change"`. -/
def fmtNoChange (head path : String) : String :=
  head ++ " " ++ path ++ " > no change"

/-- `fmtAlreadyExists = "%s %s > already exists"`. -/
def fmtAlreadyExists (head path : String) : String :=
  head ++ " " ++ path ++ " > already exists"

/-- `fmtInstalled = "%s %s > installed"`. -/
def fmtInstalled (head path : String) : String :=
  head ++ " " ++ path ++ " > installed"

/-- `fmtRevUpdate = "%s %s > updated lock.json revision (%s..%s)"`. -/
def fmtRevUpdate (head path fromHash toHash : String) : String :=
  head ++ " " ++ path ++ " > updated lock.json revision (" ++ fromHash ++ ".." ++ toHash ++ ")"

/-- `fmtUpgraded = "%s %s > upgraded (%s..%s)"`. -/
def fmtUpgraded (head path fromHash toHash : String) : String :=
  head ++ " " ++ path ++ " > upgraded (" ++ fromHash ++ ".." ++ toHash ++ ")"

/-- Outcome of `upgradePlugin` (fetch/pull): `git.NoErrAlreadyUpToDate` is
handled separately from other errors. -/
inductive UpgradeOutcome
  | pulled
  | alreadyUpToDate
  | failed (msg : String)
deriving DecidableEq

/-- Outcome of `fetchPlugin` (clone): `errRepoExists` is handled separately
from other errors. -/
inductive FetchOutcome
  | cloned
  | repoExists
  | failedFetch (msg : String)
deriving DecidableEq

/-- The environment one `installPlugin` call observes: command flag, prior
filesystem/lock state, and the outcomes of its git operations. -/
structure InstallEnv where
  upgradeFlag : Bool
  reposExists : Bool
  lockEntry : Option ReposEntry
  headBefore : Option String
  upgradeOutcome : UpgradeOutcome
  fetchOutcome : FetchOutcome
  detectedType : Option ReposType
  headAfter : Option String
deriving DecidableEq

/-- What `installPlugin` sends on its `done` channel (the fields of
`getParallelResult` that `doGet` inspects). -/
structure InstallOutcome where
  status : String
  hash : String
  failed : Bool
deriving DecidableEq

/-- The tail of `installPlugin` (src/unnamed/part_001, lines 736-778): read
the HEAD hash when the repository is a git repository, compute the
"upgraded (from..to)" status, and then — unconditionally — overwrite the
status with either `fmtRevUpdate` or `fmtNoChange` (lines 766-770).  The
`statusUpgradedDiscarded` binding reproduces the assignment at lines
762-764 whose value the final conditional discards. -/
def installPluginTail (reposPath : String) (e : InstallEnv) (entry : Option ReposEntry)
    (fromHash statusIn : String) (upgraded : Bool) : InstallOutcome :=
  let toHashRes : Option String :=
    match e.detectedType with
    | some .git => e.headAfter
    | _ => some ""
  match toHashRes with
  | none =>
    { status := fmtInstallFailed statusHeadFailed reposPath "failed to get HEAD commit hash",
      hash := "", failed := true }
  | some toHash =>
    let statusUpgradedDiscarded :=
      if upgraded then fmtUpgraded statusHeadUpgraded reposPath fromHash toHash else statusIn
    let statusFinal :=
      match entry with
      | some en =>
        if en.version ≠ toHash then fmtRevUpdate statusHeadUpgraded reposPath en.version toHash
        else fmtNoChange statusHeadNoChange reposPath
      | none => fmtNoChange statusHeadNoChange reposPath
    let _ := statusUpgradedDiscarded
    { status := statusFinal, hash := toHash, failed := false }

/-- `getCmd.installPlugin` (src/unnamed/part_001, lines 628-778) as a function
of the environment it observes.  Mirrors the branch structure: the upgrade
path (`doUpgrade`), the install path (`!pathutil.Exists`), the silent
fall-through when the repository exists and `-u` was not given, and the
shared tail. -/
def installPluginModel (reposPath : String) (e : InstallEnv) : InstallOutcome :=
  let doUpgrade := e.upgradeFlag && e.reposExists
  if doUpgrade then
    match e.headBefore with
    | none =>
      { status := fmtInstallFailed statusHeadFailed reposPath
          "failed to get HEAD commit hash", hash := "", failed := true }
    | some fromHash =>
      match e.lockEntry with
      | none =>
        { status := fmtUpgradeFailed statusHeadFailed reposPath
            "-u was specified but repos == nil", hash := "", failed := true }
      | some entry =>
        match e.upgradeOutcome with
        | .failed msg =>
          { status := fmtUpgradeFailed statusHeadFailed reposPath msg,
            hash := "", failed := true }
        | .alreadyUpToDate =>
          installPluginTail reposPath e (some entry) fromHash
            (fmtNoChange statusHeadNoChange reposPath) false
        | .pulled =>
          installPluginTail reposPath e (some entry) fromHash "" true
  else if !e.reposExists then
    match e.fetchOutcome with
    | .failedFetch msg =>
      { status := fmtInstallFailed statusHeadFailed reposPath msg,
        hash := "", failed := true }
    | .repoExists =>
      installPluginTail reposPath e e.lockEntry ""
        (fmtAlreadyExists statusHeadNoChange reposPath) false
    | .cloned =>
      installPluginTail reposPath e e.lockEntry ""
        (fmtInstalled statusHeadInstalled reposPath) false
  else
    installPluginTail reposPath e e.lockEntry "" "" false

/-- The environment of a fresh successful install: no lock entry, no source
directory, clone succeeds, a git repository with a readable HEAD. -/
def freshInstallEnv : InstallEnv :=
  { upgradeFlag := false, reposExists := false, lockEntry := none,
    headBefore := none, upgradeOutcome := .pulled, fetchOutcome := .cloned,
    detectedType := some .git, headAfter := some "4b8c6ae9e40ab0a2b8913571ad8ea15f8b0e1a7d" }

/-! ## Copy-from-git-objects materialization (`copyBuilder.updateBareGitRepos`) -/

/-- One entry of the pinned commit's tree as `updateBareGitRepos` walks it:
its path, its blob contents, and whether the two fallible per-file git
operations (`file.Mode.ToOSFileMode()` and `file.Contents()`) succeed. -/
structure TreeFile where
  name : String
  contents : String
  modeOk : Bool
  contentsOk : Bool
deriving DecidableEq

/-- The `tree.Files().ForEach` body of `copyBuilder.updateBareGitRepos`
(src/cmd/builder/symlink.go, lines 613-630): files are written one by one
into the destination; the first entry whose mode conversion or content
read fails aborts the walk with an error, leaving the files already
written in place.  (The error of `ioutil.WriteFile` itself is discarded by
the Go code.)  Returns the destination contents and a success flag. -/
def copyTreeFiles : List TreeFile → List (String × String) → List (String × String) × Bool
  | [], written => (written, true)
  | f :: rest, written =>
    if !f.modeOk then (written, false)
    else if !f.contentsOk then (written, false)
    else copyTreeFiles rest (written ++ [(f.name, f.contents)])

/-- The environment one `updateBareGitRepos` call observes. -/
structure BareRepoEnv where
  commitOk : Bool
  treeOk : Bool
  files : List TreeFile
  helptagsOk : Bool
deriving DecidableEq

/-- `copyBuilder.updateBareGitRepos` (src/cmd/builder/symlink.go, lines
589-654) as a transformer of the destination directory's contents: resolve
the locked commit and its tree, copy every blob, then run the help-tag
generator.  On any error it reports failure on the `done` channel and
returns — there is no removal of the partially written destination.
Returns the destination contents after the call and a success flag. -/
def updateBareGitReposModel (e : BareRepoEnv) : List (String × String) × Bool :=
  if !e.commitOk then ([], false)
  else if !e.treeOk then ([], false)
  else
    match copyTreeFiles e.files [] with
    | (written, false) => (written, false)
    | (written, true) =>
      if !e.helptagsOk then (written, false)
      else (written, true)

/-- `copyBuilder.updateGitRepos` (src/cmd/builder/symlink.go, lines 565-587)
on the copy-from-git-objects path: `os.RemoveAll(dst)` first (the
pre-command contents `dstPre` are discarded), then `updateBareGitRepos`.
The pre-command contents never reappear on failure. -/
def updateGitReposBareModel (dstPre : List (String × String)) (e : BareRepoEnv) :
    List (String × String) × Bool :=
  let _ := dstPre
  updateBareGitReposModel e

def c3PreDst : List (String × String) := [("old.txt", "old contents")]

def c3BadTree : BareRepoEnv :=
  { commitOk := true, treeOk := true,
    files := [{ name := "plugin/a.vim", contents := "let g:a = 1", modeOk := true, contentsOk := true },
              { name := "doc/tags", contents := "", modeOk := false, contentsOk := true }],
    helptagsOk := true }

/-! ## Build drivers (`copyBuilder.Build` and `symlinkBuilder.Build`) -/

/-- The per-invocation environment of `copyBuilder.Build`
(src/cmd/builder/symlink.go, lines 231-353): outcomes of the dispatched
copy and remove work units (`true` = unit succeeded) and of the serial
post-pass steps. -/
structure CopyBuildEnv where
  copyResults : List Bool
  removeResults : List Bool
  plugconfGenOk : Bool
  plugconfWriteOk : Bool
  ftdetectOk : Bool
  manifestWriteOk : Bool
deriving DecidableEq

/-- What a `Build` call produces: whether it returned a non-nil error, and
whether it attempted to write `build-info.json`. -/
structure BuildOutcome where
  err : Bool
  manifestWritten : Bool
deriving DecidableEq

/-- `copyBuilder.Build` (src/cmd/builder/symlink.go, lines 231-353):
`waitCopyRepos`/`waitRemoveRepos` accumulate per-unit errors and set the
`copyModified`/`removeModified` flags on each success; any accumulated
error returns before the post-pass; each post-pass failure (bundled
plugconf generation, its write, the ftdetect walk) returns before the
manifest write; `buildInfo.Write()` runs only when some unit succeeded. -/
def copyBuildModel (e : CopyBuildEnv) : BuildOutcome :=
  let copyModified := e.copyResults.any id
  let copyFailed := e.copyResults.any not
  let removeModified := e.removeResults.any id
  let removeFailed := e.removeResults.any not
  if copyFailed || removeFailed then { err := true, manifestWritten := false }
  else if !e.plugconfGenOk then { err := true, manifestWritten := false }
  else if !e.plugconfWriteOk then { err := true, manifestWritten := false }
  else if !e.ftdetectOk then { err := true, manifestWritten := false }
  else if copyModified || removeModified then
    { err := !e.manifestWriteOk, manifestWritten := true }
  else { err := false, manifestWritten := false }

/-- The per-invocation environment of `symlinkBuilder.Build`
(src/cmd/builder/symlink.go, lines 28-103). -/
structure SymlinkBuildEnv where
  unitResults : List Bool
  plugconfGenOk : Bool
  plugconfWriteOk : Bool
  manifestWriteOk : Bool
deriving DecidableEq

/-- `symlinkBuilder.Build` (src/cmd/builder/symlink.go, lines 28-103).  The
result loop reads `result := <-done; if result.err != nil { return err }`
— `err` being the (nil) error of the enclosing scope, not `result.err` —
so a failed work unit makes `Build` return a nil error, skipping both the
bundled-plugconf write and `buildInfo.Write()`.  When no unit fails, the
bundled plugconf is generated and written and then `buildInfo.Write()`
always runs (there is no modified-flag here, unlike `copyBuilder`). -/
def symlinkBuildModel (e : SymlinkBuildEnv) : BuildOutcome :=
  if e.unitResults.any not then { err := false, manifestWritten := false }
  else if !e.plugconfGenOk then { err := true, manifestWritten := false }
  else if !e.plugconfWriteOk then { err := true, manifestWritten := false }
  else { err := !e.manifestWriteOk, manifestWritten := true }

def c4FailEnv : SymlinkBuildEnv :=
  { unitResults := [true, false], plugconfGenOk := true,
    plugconfWriteOk := true, manifestWriteOk := true }

/-! ## Incremental change predicate (`copyBuilder.hasChangedGitRepos`) -/

/-- The fields of a `build-info.json` entry (`buildinfo.Repos`) read by the
change predicate. -/
structure BuildInfoRepos where
  version : String
  dirtyWorktree : Bool
deriving DecidableEq

/-- `copyBuilder.hasChangedGitRepos` (src/cmd/builder/symlink.go, lines
551-562): re-materialize when there is no previous manifest entry, the
locked version differs from the manifest's, the manifest recorded a dirty
worktree, or the worktree is dirty now. -/
def hasChangedGitRepos (reposVersion : String) (buildRepos : Option BuildInfoRepos)
    (isDirty : Bool) : Bool :=
  match buildRepos with
  | none => true
  | some br =>
    if reposVersion ≠ br.version then true
    else if br.dirtyWorktree || isDirty then true
    else false

/-- The number of `updateGitRepos` work units `copyBuilder.copyReposGit`
dispatches for one repository (src/cmd/builder/symlink.go, lines 413-421):
one when the change predicate holds, none otherwise. -/
def copyReposGitDispatchCount (reposVersion : String)
    (buildRepos : Option BuildInfoRepos) (isDirty : Bool) : Nat :=
  if hasChangedGitRepos reposVersion buildRepos isDirty then 1 else 0

def c8wManifest : BuildInfoRepos :=
  { version := "4b8c6ae9e40ab0a2b8913571ad8ea15f8b0e1a7d", dirtyWorktree := false }

/-! ## Transaction sentinel (`transaction.Remove`) -/

/-- `transaction.Remove` (src/transaction/transaction.go, lines 44-59) as a
transformer of the `trx.lock` file (`none` = absent): if the file cannot
be read, only a message is printed; if its content differs from the
calling process's pid, it is left unchanged; only when the content equals
the own pid is the file removed.  Go writes the pid with `strconv.Itoa`;
pids are non-negative, so `Nat` reproduces it. -/
def transactionRemoveModel (trxLockContent : Option String) (ownPid : Nat) :
    Option String :=
  match trxLockContent with
  | none => none
  | some pid => if pid ≠ toString ownPid then some pid else none

/-! ## Concrete documents used by witnesses and counterexamples -/

def c2wLock : LockJSON :=
  { trxID := 5, currentProfileName := "default", repos := [],
    profiles := [{ name := "default", reposPath := [], useVimrc := true, useGvimrc := true }] }

def addCaw : ProfileEntry → ProfileEntry :=
  fun p => { p with reposPath := p.reposPath ++ ["github.com/tyru/caw.vim"] }

def c2wResults : List GetWorkResult :=
  [{ path := "github.com/tyru/caw.vim", rtype := .git,
     hash := "4b8c6ae9e40ab0a2b8913571ad8ea15f8b0e1a7d", failed := false }]

def c2wProfileAfter : ProfileEntry :=
  { name := "default", reposPath := ["github.com/tyru/caw.vim"],
    useVimrc := true, useGvimrc := true }

def c9wDefaultProfile : ProfileEntry :=
  { name := "default", reposPath := [], useVimrc := true, useGvimrc := true }

def c9wFooProfile : ProfileEntry :=
  { name := "foo", reposPath := [], useVimrc := true, useGvimrc := true }

def c9wLock : LockJSON :=
  { trxID := 1, currentProfileName := "default", repos := [],
    profiles := [c9wDefaultProfile, c9wFooProfile] }

def c9wAfterSet : LockJSON :=
  { c9wLock with currentProfileName := "foo" }

def c9wAfterDestroy : LockJSON :=
  { c9wLock with profiles := [c9wDefaultProfile] }

/-- The entry `get` appends to `c9wLock` (whose `trx_id` becomes 2). -/
def c2wNewEntry : ReposEntry :=
  { rtype := .git, trxID := 2, path := "github.com/tyru/caw.vim",
    version := "4b8c6ae9e40ab0a2b8913571ad8ea15f8b0e1a7d" }

/-- The fresh profile `profile new bar` appends. -/
def c2wBarProfile : ProfileEntry :=
  { name := "bar", reposPath := [], useVimrc := true, useGvimrc := true }

/-- `c9wLock` after `profile new bar`. -/
def c2wAfterNew : LockJSON :=
  { c9wLock with profiles := [c9wDefaultProfile, c9wFooProfile, c2wBarProfile] }

/-- The `foo` profile with its vimrc flag cleared by `profile use`. -/
def c2wFooNoVimrc : ProfileEntry :=
  { name := "foo", reposPath := [], useVimrc := false, useGvimrc := true }

/-- `c9wLock` after `profile use foo vimrc false`. -/
def c2wAfterUse : LockJSON :=
  { c9wLock with profiles := [c9wDefaultProfile, c2wFooNoVimrc] }

/-- `c9wLock` after `profile add default github.com/tyru/caw.vim`. -/
def c2wAfterAdd : LockJSON :=
  { c9wLock with profiles := [c2wProfileAfter, c9wFooProfile] }

/-! ## Lemmas about the pack encoding -/

theorem packEncode_underscore (t : List Char) :
    packEncode ('_' :: t) = '_' :: '_' :: packEncode t := rfl

theorem packEncode_slash (t : List Char) : packEncode ('/' :: t) = '_' :: packEncode t := rfl

theorem packEncode_other {c : Char} (h1 : c ≠ '_') (h2 : c ≠ '/') (t : List Char) :
    packEncode (c :: t) = c :: packEncode t := by
  simp [packEncode, h1, h2]

theorem packDecode_uu (t : List Char) : packDecode ('_' :: '_' :: t) = '_' :: packDecode t := rfl

theorem packDecode_u_cons {c : Char} (h : c ≠ '_') (t : List Char) :
    packDecode ('_' :: c :: t) = '/' :: packDecode (c :: t) := by
  simp [packDecode, h]

theorem packDecode_other {c : Char} (h : c ≠ '_') (t : List Char) :
    packDecode (c :: t) = c :: packDecode t := by
  simp [packDecode, h]

theorem slashOk_cons_of_ne {c : Char} (h : c ≠ '/') (t : List Char) :
    slashOk (c :: t) = slashOk t := by
  simp [slashOk, h]

/-- On paths where no `/` is followed by `_` or `/`, the constructed decoder
inverts the pack encoding. -/
theorem packDecode_packEncode (r : List Char) (h : slashOk r = true) :
    packDecode (packEncode r) = r := by
  induction r with
  | nil => rfl
  | cons c t ih =>
    by_cases hc1 : c = '_'
    · subst hc1
      rw [packEncode_underscore, packDecode_uu, ih (by simpa [slashOk] using h)]
    by_cases hc2 : c = '/'
    · subst hc2
      rw [packEncode_slash]
      cases t with
      | nil => rfl
      | cons c' t' =>
        have hc'1 : c' ≠ '_' := by rintro rfl; simp [slashOk] at h
        have hc'2 : c' ≠ '/' := by rintro rfl; simp [slashOk] at h
        have ht : slashOk (c' :: t') = true := by
          simpa [slashOk, hc'1, hc'2] using h
        rw [packEncode_other hc'1 hc'2, packDecode_u_cons hc'1,
          ← packEncode_other hc'1 hc'2, ih ht]
    · rw [packEncode_other hc1 hc2, packDecode_other hc1,
        ih (by simpa [slashOk_cons_of_ne hc2] using h)]

theorem packEncode_inj (r1 r2 : List Char) (h1 : slashOk r1 = true)
    (h2 : slashOk r2 = true) (he : packEncode r1 = packEncode r2) : r1 = r2 := by
  have hd := packDecode_packEncode r1 h1
  rw [he, packDecode_packEncode r2 h2] at hd
  exact hd.symm

/-! ## Lemmas about slash-splitting and `NormalizeRepos` -/

theorem splitStep_ne_nil (c : Char) (acc : List (List Char)) : splitStep c acc ≠ [] := by
  unfold splitStep; split <;> simp

theorem splitSlash_ne_nil (s : List Char) : splitSlash s ≠ [] := by
  induction s with
  | nil => simp [splitSlash]
  | cons c t ih => simpa [splitSlash] using splitStep_ne_nil c (t.foldr splitStep [[]])

theorem splitSlash_cons (c : Char) (t : List Char) :
    splitSlash (c :: t) = splitStep c (splitSlash t) := rfl

theorem splitSlash_no_slash (s : List Char) (h : '/' ∉ s) : splitSlash s = [s] := by
  induction s with
  | nil => rfl
  | cons c t ih =>
    have hc : c ≠ '/' := fun hh => h (hh ▸ List.mem_cons_self c t)
    have ht : '/' ∉ t := fun hh => h (List.mem_cons_of_mem c hh)
    rw [splitSlash_cons, ih ht]
    simp [splitStep, hc]

theorem splitSlash_append (p x : List Char) :
    splitSlash (p ++ x) = p.foldr splitStep (splitSlash x) := by
  simp [splitSlash, List.foldr_append]

theorem splitSlash_append_slash_cons (p t : List Char) (h : '/' ∉ p) :
    splitSlash (p ++ '/' :: t) = p :: splitSlash t := by
  induction p with
  | nil => simp [splitSlash_cons, splitStep]
  | cons c p' ih =>
    have hc : c ≠ '/' := fun hh => h (hh ▸ List.mem_cons_self c p')
    have hp' : '/' ∉ p' := fun hh => h (List.mem_cons_of_mem c hh)
    rw [List.cons_append, splitSlash_cons, ih hp']
    simp [splitStep, hc]

theorem splitSlash_no_slash_mem (s : List Char) (p : List Char) (hp : p ∈ splitSlash s) :
    '/' ∉ p := by
  induction s generalizing p with
  | nil => simp [splitSlash] at hp; simp [hp]
  | cons c t ih =>
    rw [splitSlash_cons] at hp
    unfold splitStep at hp
    split at hp
    · rcases List.mem_cons.mp hp with rfl | hmem
      · simp
      · exact ih p hmem
    · next hc =>
      rcases hsp : splitSlash t with _ | ⟨s', rest⟩
      · exact absurd hsp (splitSlash_ne_nil t)
      rw [hsp] at hp
      simp only [List.headI_cons, List.tail_cons] at hp
      rcases List.mem_cons.mp hp with rfl | hmem
      · intro hin
        rcases List.mem_cons.mp hin with rfl | hin2
        · exact hc rfl
        · exact ih s' (hsp ▸ List.mem_cons_self s' rest) hin2
      · exact ih p (hsp ▸ List.mem_cons_of_mem s' hmem)

theorem splitSlash_joinSlash (l : List (List Char)) (hne : l ≠ [])
    (h : ∀ p ∈ l, '/' ∉ p) : splitSlash (joinSlash l) = l := by
  induction l with
  | nil => exact absurd rfl hne
  | cons p rest ih =>
    cases rest with
    | nil => exact splitSlash_no_slash p (h p (List.mem_cons_self p []))
    | cons q rest' =>
      show splitSlash (p ++ '/' :: joinSlash (q :: rest')) = _
      rw [splitSlash_append_slash_cons _ _ (h p (List.mem_cons_self _ _)),
        ih (by simp) (fun x hx => h x (List.mem_cons_of_mem p hx))]

theorem foldr_splitStep_ne_nil (a : List Char) (acc : List (List Char)) (h : acc ≠ []) :
    a.foldr splitStep acc ≠ [] := by
  cases a with
  | nil => exact h
  | cons c t => exact splitStep_ne_nil c _

theorem length_splitStep_eq (c : Char) (acc acc' : List (List Char)) (h : acc ≠ [])
    (h' : acc' ≠ []) (hlen : acc.length = acc'.length) :
    (splitStep c acc).length = (splitStep c acc').length := by
  unfold splitStep
  split
  · simpa using hlen
  · rcases acc with _ | ⟨s, rest⟩
    · exact absurd rfl h
    rcases acc' with _ | ⟨s', rest'⟩
    · exact absurd rfl h'
    simpa using hlen

theorem length_foldr_splitStep (a : List Char) (acc acc' : List (List Char))
    (h : acc ≠ []) (h' : acc' ≠ []) (hlen : acc.length = acc'.length) :
    (a.foldr splitStep acc).length = (a.foldr splitStep acc').length := by
  induction a with
  | nil => exact hlen
  | cons c t ih =>
    simp only [List.foldr_cons]
    exact length_splitStep_eq c _ _ (foldr_splitStep_ne_nil t acc h)
      (foldr_splitStep_ne_nil t acc' h') ih

theorem length_splitSlash_append (a b : List Char) (h : '/' ∉ b) :
    (splitSlash (a ++ b)).length = (splitSlash a).length := by
  rw [splitSlash_append]
  exact length_foldr_splitStep a (splitSlash b) [[]]
    (splitSlash_ne_nil b) (by simp) (by rw [splitSlash_no_slash b h]; rfl)

theorem trimSuffix_self_or_append (s suff : List Char) :
    trimSuffix s suff = s ∨ s = trimSuffix s suff ++ suff := by
  unfold trimSuffix
  split
  · next hsuf =>
    right
    obtain ⟨t, ht⟩ := List.isSuffixOf_iff_suffix.mp hsuf
    subst ht
    simp
  · exact Or.inl rfl

theorem length_splitSlash_trimSuffix (s : List Char) :
    (splitSlash (trimSuffix s gitSuffix)).length = (splitSlash s).length := by
  rcases trimSuffix_self_or_append s gitSuffix with heq | heq
  · rw [heq]
  · conv_rhs => rw [heq]
    rw [length_splitSlash_append _ _ (by decide)]

/-- Every successful result of `NormalizeRepos` has exactly three
slash-separated segments. -/
theorem normalizeRepos_ok_three_segments (raw out : List Char)
    (h : normalizeRepos raw = .ok out) : (splitSlash out).length = 3 := by
  simp only [normalizeRepos] at h
  split at h
  · next h3 =>
    rw [GoResult.ok.injEq] at h
    subst h
    rw [length_splitSlash_trimSuffix, h3]
  split at h
  · next h3 h2 =>
    rw [GoResult.ok.injEq] at h
    subst h
    rw [length_splitSlash_trimSuffix]
    have heq : "github.com/".toList ++ raw = "github.com".toList ++ '/' :: raw := by
      rw [show "github.com/".toList = "github.com".toList ++ ['/'] from rfl,
        List.append_assoc]
      rfl
    rw [heq, splitSlash_append_slash_cons _ _ (by decide)]
    simp [h2]
  split at h
  · next hscheme =>
    split at h
    · next hlen3 =>
      rw [GoResult.ok.injEq] at h
      subst h
      rw [length_splitSlash_trimSuffix]
      have hlen : (List.drop ((splitSlash raw).length - 3) (splitSlash raw)).length = 3 := by
        rw [List.length_drop]
        omega
      rw [splitSlash_joinSlash _ (by intro hnil; rw [hnil] at hlen; simp at hlen)
        (fun p hp => splitSlash_no_slash_mem raw p (List.mem_of_mem_drop hp)), hlen]
    · exact absurd h (by simp)
  · exact absurd h (by simp)

/-! ## Lemmas about the lock-document transformers -/

theorem updateReposVersion_trxID (l : LockJSON) (p : String) (rt : ReposType) (v : String) :
    (updateReposVersion l p rt v).trxID = l.trxID := by
  unfold updateReposVersion
  cases findByPath l.repos p <;> rfl

theorem foldl_getstep_trxID (rs : List GetWorkResult) (l : LockJSON) :
    (rs.foldl
      (fun l r => if r.failed then l else updateReposVersion l r.path r.rtype r.hash)
      l).trxID = l.trxID := by
  induction rs generalizing l with
  | nil => rfl
  | cons r rest ih =>
    rw [List.foldl_cons, ih]
    split
    · rfl
    · exact updateReposVersion_trxID l r.path r.rtype r.hash

theorem doGetLock_trxID (lock : LockJSON) (rs : List GetWorkResult) :
    (doGetLock lock rs).trxID = lock.trxID + 1 := by
  unfold doGetLock
  exact foldl_getstep_trxID rs _

theorem mem_setReposVersion (rs : List ReposEntry) (p : String) (t : Nat) (v : String)
    (e : ReposEntry) (he : e ∈ setReposVersion rs p t v) : e ∈ rs ∨ e.trxID = t := by
  induction rs with
  | nil => simp [setReposVersion] at he
  | cons r rest ih =>
    by_cases hr : r.path = p
    · rw [setReposVersion, if_pos hr] at he
      rcases List.mem_cons.mp he with rfl | hmem
      · right; rfl
      · exact Or.inl (List.mem_cons_of_mem r hmem)
    · rw [setReposVersion, if_neg hr] at he
      rcases List.mem_cons.mp he with rfl | hmem
      · exact Or.inl (List.mem_cons_self e rest)
      · rcases ih hmem with h | h
        · exact Or.inl (List.mem_cons_of_mem r h)
        · exact Or.inr h

theorem mem_updateReposVersion (l : LockJSON) (p : String) (rt : ReposType) (v : String)
    (e : ReposEntry) (he : e ∈ (updateReposVersion l p rt v).repos) :
    e ∈ l.repos ∨ e.trxID = l.trxID := by
  cases hf : findByPath l.repos p with
  | none =>
    simp only [updateReposVersion, hf] at he
    rcases List.mem_append.mp he with h | h
    · exact Or.inl h
    · right
      rw [List.mem_singleton.mp h]
  | some r =>
    simp only [updateReposVersion, hf] at he
    exact mem_setReposVersion _ _ _ _ _ he

theorem mem_foldl_getstep (rs : List GetWorkResult) (l : LockJSON) (T : Nat)
    (P0 : List ReposEntry) (hT : l.trxID = T)
    (hP : ∀ x ∈ l.repos, x ∈ P0 ∨ x.trxID = T) (e : ReposEntry)
    (he : e ∈ (rs.foldl
      (fun l r => if r.failed then l else updateReposVersion l r.path r.rtype r.hash)
      l).repos) : e ∈ P0 ∨ e.trxID = T := by
  induction rs generalizing l with
  | nil => exact hP e he
  | cons r rest ih =>
    rw [List.foldl_cons] at he
    by_cases hf : r.failed
    · rw [if_pos hf] at he
      exact ih l hT hP he
    · rw [if_neg hf] at he
      refine ih _ ?_ ?_ he
      · rw [updateReposVersion_trxID, hT]
      · intro x hx
        rcases mem_updateReposVersion _ _ _ _ _ hx with h | h
        · exact hP x h
        · exact Or.inr (hT ▸ h)

theorem doGetLock_mem (lock : LockJSON) (rs : List GetWorkResult) (e : ReposEntry)
    (he : e ∈ (doGetLock lock rs).repos) :
    e ∈ lock.repos ∨ e.trxID = lock.trxID + 1 := by
  unfold doGetLock at he
  exact mem_foldl_getstep rs { lock with trxID := lock.trxID + 1 } (lock.trxID + 1)
    lock.repos rfl (fun x hx => Or.inl hx) e he

theorem doRemoveLock_trxID (lock : LockJSON) (paths : List String) :
    (doRemoveLock lock paths).trxID = lock.trxID + 1 := by
  unfold doRemoveLock
  generalize hl : ({ lock with trxID := lock.trxID + 1 } : LockJSON) = l0
  have h0 : l0.trxID = lock.trxID + 1 := by rw [← hl]
  clear hl
  induction paths generalizing l0 with
  | nil => exact h0
  | cons p rest ih => exact ih _ h0

theorem transactProfileLock_trxID (lock : LockJSON) (name : String)
    (f : ProfileEntry → ProfileEntry) (lock2 : LockJSON)
    (h : transactProfileLock lock name f = some lock2) : lock2.trxID = lock.trxID := by
  unfold transactProfileLock at h
  cases hf : findProfileByName lock.profiles name with
  | none => rw [hf] at h; exact absurd h (by simp)
  | some p =>
    rw [hf] at h
    rw [← Option.some.injEq _ _ |>.mp h]

theorem doSetLock_trxID (lock : LockJSON) (name : String) (lock2 : LockJSON)
    (h : doSetLock lock name = some lock2) : lock2.trxID = lock.trxID := by
  unfold doSetLock at h
  split at h
  · exact absurd h (by simp)
  · cases hf : findProfileByName lock.profiles name with
    | none => rw [hf] at h; exact absurd h (by simp)
    | some p =>
      rw [hf] at h
      rw [← Option.some.inj h]

theorem doNewLock_trxID (lock : LockJSON) (name : String) (lock2 : LockJSON)
    (h : doNewLock lock name = some lock2) : lock2.trxID = lock.trxID := by
  unfold doNewLock at h
  cases hf : findProfileByName lock.profiles name with
  | none => rw [hf] at h; rw [← Option.some.inj h]
  | some p => rw [hf] at h; exact absurd h (by simp)

theorem doDestroyLock_trxID (lock : LockJSON) (name : String) (lock2 : LockJSON)
    (h : doDestroyLock lock name = some lock2) : lock2.trxID = lock.trxID := by
  unfold doDestroyLock at h
  split at h
  · exact absurd h (by simp)
  · cases hf : findProfileIndexByName lock.profiles name with
    | none => rw [hf] at h; exact absurd h (by simp)
    | some i =>
      rw [hf] at h
      rw [← Option.some.inj h]

theorem doUseLock_trxID (lock : LockJSON) (name rcName : String) (value : Bool)
    (lock2 : LockJSON) (h : doUseLock lock name rcName value = some lock2) :
    lock2.trxID = lock.trxID := by
  unfold doUseLock at h
  cases hf : findProfileByName lock.profiles name with
  | none => rw [hf] at h; exact absurd h (by simp)
  | some p =>
    rw [hf] at h
    rw [← Option.some.inj h]

theorem findProfileByName_mem (ps : List ProfileEntry) (n : String) (p : ProfileEntry)
    (h : findProfileByName ps n = some p) : p ∈ ps ∧ p.name = n := by
  induction ps with
  | nil => simp [findProfileByName] at h
  | cons q rest ih =>
    by_cases hq : q.name = n
    · rw [findProfileByName, if_pos hq] at h
      obtain rfl := Option.some.inj h
      exact ⟨List.mem_cons_self q rest, hq⟩
    · rw [findProfileByName, if_neg hq] at h
      obtain ⟨hm, hn⟩ := ih h
      exact ⟨List.mem_cons_of_mem q hm, hn⟩

theorem findProfileIndexByName_get (ps : List ProfileEntry) (n : String) (i : Nat)
    (h : findProfileIndexByName ps n = some i) :
    ∃ hlt : i < ps.length, (ps.get ⟨i, hlt⟩).name = n := by
  induction ps generalizing i with
  | nil => simp [findProfileIndexByName] at h
  | cons q rest ih =>
    by_cases hq : q.name = n
    · rw [findProfileIndexByName, if_pos hq] at h
      obtain rfl := Option.some.inj h
      exact ⟨by simp, hq⟩
    · rw [findProfileIndexByName, if_neg hq] at h
      cases hf : findProfileIndexByName rest n with
      | none => rw [hf] at h; simp at h
      | some j =>
        rw [hf] at h
        simp only [Option.map_some', Option.some.injEq] at h
        subst h
        obtain ⟨hlt, hget⟩ := ih j hf
        exact ⟨by simpa using Nat.succ_lt_succ hlt, by simpa using hget⟩

theorem any_name_eraseIdx (ps : List ProfileEntry) (c : String) (i : Nat)
    (hlt : i < ps.length) (hne : (ps.get ⟨i, hlt⟩).name ≠ c)
    (h : ps.any (fun p => p.name = c) = true) :
    (ps.eraseIdx i).any (fun p => p.name = c) = true := by
  induction ps generalizing i with
  | nil => simp at h
  | cons q rest ih =>
    cases i with
    | zero =>
      have hne0 : q.name ≠ c := hne
      simp only [List.any_cons, Bool.or_eq_true, decide_eq_true_eq] at h
      rcases h with h | h
      · exact absurd h hne0
      · simpa [List.eraseIdx] using h
    | succ j =>
      rw [List.eraseIdx_cons_succ]
      simp only [List.any_cons, Bool.or_eq_true, decide_eq_true_eq] at h ⊢
      rcases h with h | h
      · exact Or.inl h
      · right
        have hlt' : j < rest.length := by simpa using hlt
        have hne' : (rest.get ⟨j, hlt'⟩).name ≠ c := hne
        exact ih j hlt' hne' h

/-! ## Lemma about the copy builder manifest write -/

theorem copyBuildModel_manifest_iff (e : CopyBuildEnv) :
    (copyBuildModel e).manifestWritten = true ↔
      ((e.copyResults.any id || e.removeResults.any id) = true ∧
       e.copyResults.any not = false ∧ e.removeResults.any not = false ∧
       e.plugconfGenOk = true ∧ e.plugconfWriteOk = true ∧ e.ftdetectOk = true) := by
  simp only [copyBuildModel]
  cases hcf : e.copyResults.any not <;> cases hrf : e.removeResults.any not <;>
    cases hpg : e.plugconfGenOk <;> cases hpw : e.plugconfWriteOk <;>
    cases hft : e.ftdetectOk <;>
    cases hcm : e.copyResults.any id <;> cases hrm : e.removeResults.any id <;>
    simp [hcf, hrf, hpg, hpw, hft, hcm, hrm]

/-- Helper for claim C1: the shared tail of `installPlugin` only ever reports
`fmtNoChange` or `fmtRevUpdate` on success, whatever status was computed
before it. -/
theorem installPluginTail_status (p : String) (e : InstallEnv) (entry : Option ReposEntry)
    (fh si : String) (u : Bool) :
    (installPluginTail p e entry fh si u).failed = true ∨
    (installPluginTail p e entry fh si u).status = fmtNoChange statusHeadNoChange p ∨
    ∃ v t, (installPluginTail p e entry fh si u).status =
      fmtRevUpdate statusHeadUpgraded p v t := by
  simp only [installPluginTail]
  split
  · exact Or.inl rfl
  · next toHash _ =>
    cases entry with
    | none => exact Or.inr (Or.inl rfl)
    | some en =>
      by_cases hv : en.version ≠ toHash
      · exact Or.inr (Or.inr ⟨en.version, toHash, by simp [hv]⟩)
      · exact Or.inr (Or.inl (by simp [hv]))

/-- Helper for claim C1: no successful `installPlugin` call, on any
environment, ever reports the `+` installed status: every success is a
`#` no-change or a `*` revision-update line. -/
theorem installPluginModel_status (p : String) (e : InstallEnv) :
    (installPluginModel p e).failed = true ∨
    (installPluginModel p e).status = fmtNoChange statusHeadNoChange p ∨
    ∃ v t, (installPluginModel p e).status = fmtRevUpdate statusHeadUpgraded p v t := by
  simp only [installPluginModel]
  by_cases hdo : (e.upgradeFlag && e.reposExists) = true
  · rw [if_pos hdo]
    cases e.headBefore with
    | none => exact Or.inl rfl
    | some fh =>
      cases e.lockEntry with
      | none => exact Or.inl rfl
      | some entry =>
        cases e.upgradeOutcome with
        | failed m => exact Or.inl rfl
        | alreadyUpToDate => exact installPluginTail_status p e (some entry) fh _ false
        | pulled => exact installPluginTail_status p e (some entry) fh _ true
  · rw [if_neg hdo]
    by_cases hre : (!e.reposExists) = true
    · rw [if_pos hre]
      cases e.fetchOutcome with
      | failedFetch m => exact Or.inl rfl
      | repoExists => exact installPluginTail_status p e e.lockEntry _ _ false
      | cloned => exact installPluginTail_status p e e.lockEntry _ _ false
    · rw [if_neg hre]
      exact installPluginTail_status p e e.lockEntry _ _ false

/-! ## Per-claim theorems -/

/-- Claim C1 (code bug): the claim says a fresh successful install is reported
with the `+` installed glyph, but the final conditional of `installPlugin`
(src/unnamed/part_001, lines 766-770) unconditionally overwrites the status,
so a fresh successful install (no lock entry, no source directory, clone
succeeded) is reported as `#` no change instead of `+` installed — and no
successful work unit whatsoever is ever reported with `+`. -/
theorem claim_C1_eval :
    ((installPluginModel "github.com/tyru/caw.vim" freshInstallEnv).failed = false ∧
      (installPluginModel "github.com/tyru/caw.vim" freshInstallEnv).status =
        "# github.com/tyru/caw.vim > no change" ∧
      (installPluginModel "github.com/tyru/caw.vim" freshInstallEnv).status ≠
        "+ github.com/tyru/caw.vim > installed") ∧
    ∀ (path : String) (e : InstallEnv),
      (installPluginModel path e).failed = true ∨
      (installPluginModel path e).status = fmtNoChange statusHeadNoChange path ∨
      ∃ v t, (installPluginModel path e).status =
        fmtRevUpdate statusHeadUpgraded path v t := by
  exact ⟨⟨rfl, rfl, by decide⟩, installPluginModel_status⟩

/-- Claim C2 counterexample: a successful `profile add` (through
`transactProfile`) leaves `trx_id` at its prior value 5 instead of
incrementing it to 6, refuting the claim for the profile subcommands. -/
theorem claim_C2_counterexample :
    (transactProfileLock c2wLock "default" addCaw).map LockJSON.trxID = some 5 ∧
    (5 : Nat) ≠ 5 + 1 := by
  refine ⟨rfl, by decide⟩

/-- Claim C2 (amended): `get` and `rm` increment `trx_id` by exactly one and
every `RepoEntry` created or modified by `get` carries the new value, while
every profile subcommand writes the lock document with `trx_id` unchanged:
`set`, `new`, `destroy` and `use` each write it directly without touching
`TrxID`, and `add`/`rm` go through `transactProfile`, which does not touch
it either. -/
theorem claim_C2 (lock : LockJSON) (rs : List GetWorkResult) (paths : List String)
    (nameSet nameNew nameDestroy nameUse rcName : String) (value : Bool)
    (nameTP : String) (f : ProfileEntry → ProfileEntry)
    (l2 l3 l4 l5 l6 : LockJSON) :
    (doGetLock lock rs).trxID = lock.trxID + 1 ∧
    (∀ e ∈ (doGetLock lock rs).repos, e ∈ lock.repos ∨ e.trxID = lock.trxID + 1) ∧
    (doRemoveLock lock paths).trxID = lock.trxID + 1 ∧
    (doSetLock lock nameSet = some l2 → l2.trxID = lock.trxID) ∧
    (doNewLock lock nameNew = some l3 → l3.trxID = lock.trxID) ∧
    (doDestroyLock lock nameDestroy = some l4 → l4.trxID = lock.trxID) ∧
    (doUseLock lock nameUse rcName value = some l5 → l5.trxID = lock.trxID) ∧
    (transactProfileLock lock nameTP f = some l6 → l6.trxID = lock.trxID) :=
  ⟨doGetLock_trxID lock rs, fun e he => doGetLock_mem lock rs e he,
    doRemoveLock_trxID lock paths,
    fun h => doSetLock_trxID lock nameSet l2 h,
    fun h => doNewLock_trxID lock nameNew l3 h,
    fun h => doDestroyLock_trxID lock nameDestroy l4 h,
    fun h => doUseLock_trxID lock nameUse rcName value l5 h,
    fun h => transactProfileLock_trxID lock nameTP f l6 h⟩

/-- Witness for claim C2 on a concrete two-profile lock document, exercising
`get`, `rm` and all five profile writers. -/
theorem claim_C2_witness :
    (doGetLock c9wLock c2wResults).trxID = c9wLock.trxID + 1 ∧
    (c2wNewEntry ∈ c9wLock.repos ∨ c2wNewEntry.trxID = c9wLock.trxID + 1) ∧
    (doRemoveLock c9wLock []).trxID = c9wLock.trxID + 1 ∧
    c9wAfterSet.trxID = c9wLock.trxID ∧
    c2wAfterNew.trxID = c9wLock.trxID ∧
    c9wAfterDestroy.trxID = c9wLock.trxID ∧
    c2wAfterUse.trxID = c9wLock.trxID ∧
    c2wAfterAdd.trxID = c9wLock.trxID := by
  obtain ⟨h1, h2, h3, h4, h5, h6, h7, h8⟩ :=
    claim_C2 c9wLock c2wResults [] "foo" "bar" "foo" "foo" "vimrc" false "default" addCaw
      c9wAfterSet c2wAfterNew c9wAfterDestroy c2wAfterUse c2wAfterAdd
  exact ⟨h1, h2 c2wNewEntry (by decide), h3, h4 (by decide), h5 (by decide),
    h6 (by decide), h7 (by decide), h8 (by decide)⟩

/-- Claim C3 (code bug): the claim says a failed materialization leaves the
destination directory absent or in its pre-command state, but
`updateGitRepos`/`updateBareGitRepos` first remove the destination and then,
when a tree entry fails mid-walk, leave the partially copied files in place:
here the destination ends up neither empty nor equal to its pre-command
contents. -/
theorem claim_C3_eval :
    updateGitReposBareModel c3PreDst c3BadTree =
      ([("plugin/a.vim", "let g:a = 1")], false) ∧
    ([("plugin/a.vim", "let g:a = 1")] : List (String × String)) ≠ [] ∧
    ([("plugin/a.vim", "let g:a = 1")] : List (String × String)) ≠ c3PreDst := by
  refine ⟨rfl, by decide, by decide⟩

/-- Claim C4 (code bug): the claim says a failed work unit makes the builder
return a non-nil error; `symlinkBuilder.Build` instead executes `return err`
with the enclosing (nil) `err` when a unit fails, returning no error and
skipping the manifest write.  The copy builder does satisfy the claim: its
manifest is written exactly when some unit succeeded and no unit failure or
fatal post-pass error occurred. -/
theorem claim_C4_eval :
    symlinkBuildModel c4FailEnv = { err := false, manifestWritten := false } ∧
    ∀ e : CopyBuildEnv,
      (copyBuildModel e).manifestWritten = true ↔
        ((e.copyResults.any id || e.removeResults.any id) = true ∧
         e.copyResults.any not = false ∧ e.removeResults.any not = false ∧
         e.plugconfGenOk = true ∧ e.plugconfWriteOk = true ∧ e.ftdetectOk = true) := by
  exact ⟨rfl, copyBuildModel_manifest_iff⟩

/-- Claim C5 counterexample: the pack encoding is not injective — the
distinct repo paths `github.com/a_/b` and `github.com/a/_b` encode to the
same directory name, so no decoder can invert the encoding on all
RepoIDs. -/
theorem claim_C5_counterexample :
    packEncode "github.com/a_/b".toList = packEncode "github.com/a/_b".toList ∧
    "github.com/a_/b".toList ≠ "github.com/a/_b".toList := by
  refine ⟨by decide, by decide⟩

/-- Claim C5 (amended): on repo paths where no `/` is immediately followed by
`_` or `/` (in particular canonical paths whose segments are nonempty and do
not start with an underscore), a decoder exists with
`decode (encode r) = r`, and the encoding is injective there. -/
theorem claim_C5 (r1 r2 : List Char) (h1 : slashOk r1 = true) (h2 : slashOk r2 = true) :
    packDecode (packEncode r1) = r1 ∧ (packEncode r1 = packEncode r2 → r1 = r2) :=
  ⟨packDecode_packEncode r1 h1, packEncode_inj r1 r2 h1 h2⟩

/-- Witness for claim C5 at two concrete canonical repo paths. -/
theorem claim_C5_witness :
    slashOk "github.com/tyru/caw.vim".toList = true ∧
    packDecode (packEncode "github.com/tyru/caw.vim".toList) =
      "github.com/tyru/caw.vim".toList ∧
    (packEncode "github.com/tyru/caw.vim".toList =
        packEncode "github.com/vim-jp/vital.vim".toList →
      "github.com/tyru/caw.vim".toList = "github.com/vim-jp/vital.vim".toList) := by
  refine ⟨by decide, ?_, ?_⟩
  · exact (claim_C5 "github.com/tyru/caw.vim".toList "github.com/vim-jp/vital.vim".toList
      (by decide) (by decide)).1
  · exact (claim_C5 "github.com/tyru/caw.vim".toList "github.com/vim-jp/vital.vim".toList
      (by decide) (by decide)).2

/-- Claim C6 counterexample: for the input `https:` — which begins with a
scheme prefix — the claim predicts the last three segments joined (i.e. a
successful result), but the Go code slices `paths[len(paths)-3:]` with
`len(paths) = 1` and panics. -/
theorem claim_C6_counterexample :
    normalizeRepos "https:".toList = GoResult.goPanic ∧
    normalizeRepos "https:".toList ≠
      GoResult.ok (trimSuffix (joinSlash (splitSlash "https:".toList)) gitSuffix) := by
  refine ⟨by decide, by decide⟩

/-- Claim C6 (amended): after forward-slash normalization, `NormalizeRepos`
returns the input with a trailing `.git` removed when it has exactly three
segments; `github.com/` prefixed to the input with `.git` removed when it
has exactly two segments; the last three segments joined by `/` with `.git`
removed when the first segment is a scheme token (`https:`, `http:`,
`git:`) and there are at least four segments; it panics (out-of-range
slice) on the bare one-segment scheme inputs; and returns an error for
every other input. -/
theorem claim_C6 (raw : List Char) :
    ((splitSlash raw).length = 3 →
      normalizeRepos raw = .ok (trimSuffix raw gitSuffix)) ∧
    ((splitSlash raw).length = 2 →
      normalizeRepos raw = .ok (trimSuffix ("github.com/".toList ++ raw) gitSuffix)) ∧
    ((splitSlash raw).length ≠ 3 → (splitSlash raw).length ≠ 2 →
      isSchemeSeg (splitSlash raw).headI = true →
      (4 ≤ (splitSlash raw).length →
        normalizeRepos raw =
          .ok (trimSuffix
            (joinSlash ((splitSlash raw).drop ((splitSlash raw).length - 3))) gitSuffix)) ∧
      ((splitSlash raw).length = 1 → normalizeRepos raw = .goPanic)) ∧
    ((splitSlash raw).length ≠ 3 → (splitSlash raw).length ≠ 2 →
      isSchemeSeg (splitSlash raw).headI = false →
      normalizeRepos raw = .error ("invalid format of repository: ".toList ++ raw)) := by
  refine ⟨?_, ?_, ?_, ?_⟩
  · intro h3
    simp [normalizeRepos, h3]
  · intro h2
    simp [normalizeRepos, h2]
  · intro h3 h2 hs
    simp only [isSchemeSeg, Bool.or_eq_true, decide_eq_true_eq] at hs
    have hs' : (splitSlash raw).headI = "https:".toList ∨
        (splitSlash raw).headI = "http:".toList ∨
        (splitSlash raw).headI = "git:".toList := by tauto
    constructor
    · intro h4
      have h3le : 3 ≤ (splitSlash raw).length := by omega
      simp only [normalizeRepos]
      rw [if_neg h3, if_neg h2, if_pos hs', if_pos h3le]
    · intro h1
      simp only [normalizeRepos]
      rw [if_neg h3, if_neg h2, if_pos hs', if_neg (by omega)]
  · intro h3 h2 hs
    simp only [isSchemeSeg, Bool.or_eq_false_iff, decide_eq_false_iff_not] at hs
    simp only [normalizeRepos]
    rw [if_neg h3, if_neg h2, if_neg (by tauto)]

/-- Witness for claim C6 at the two-segment input `tyru/caw.vim`. -/
theorem claim_C6_witness :
    normalizeRepos "tyru/caw.vim".toList =
      .ok (trimSuffix ("github.com/".toList ++ "tyru/caw.vim".toList) gitSuffix) :=
  (claim_C6 "tyru/caw.vim".toList).2.1 (by decide)

/-- Claim C7 counterexample: the accepted input `tyru/a.git.git` (form
`user/name` with a trailing `.git`) normalizes to `github.com/tyru/a.git`,
which a second normalization changes to `github.com/tyru/a`, so
normalization is not idempotent on it. -/
theorem claim_C7_counterexample :
    normalizeRepos "tyru/a.git.git".toList = .ok "github.com/tyru/a.git".toList ∧
    normalizeRepos "github.com/tyru/a.git".toList = .ok "github.com/tyru/a".toList ∧
    "github.com/tyru/a.git".toList ≠ "github.com/tyru/a".toList := by
  refine ⟨by decide, by decide, by decide⟩

/-- Claim C7 (amended): normalization is idempotent on every accepted input
whose normalized result does not itself end in `.git` (equivalently, the
input does not end in `.git.git`): a second `NormalizeRepos` returns the
first result unchanged and without error. -/
theorem claim_C7 (raw out : List Char) (h : normalizeRepos raw = .ok out)
    (hg : gitSuffix.isSuffixOf out = false) : normalizeRepos out = .ok out := by
  have h3 := normalizeRepos_ok_three_segments raw out h
  simp only [normalizeRepos]
  rw [if_pos h3, trimSuffix, if_neg (by simp [hg])]

/-- Witness for claim C7 at the accepted input `tyru/caw.vim`. -/
theorem claim_C7_witness :
    normalizeRepos "github.com/tyru/caw.vim".toList =
      .ok "github.com/tyru/caw.vim".toList :=
  claim_C7 "tyru/caw.vim".toList "github.com/tyru/caw.vim".toList (by decide) (by decide)

/-- Claim C8 (confirmed): `hasChangedGitRepos` returns true exactly when
there is no previous manifest entry, or the locked version differs from the
manifest entry's, or the manifest recorded a dirty worktree, or the
worktree is currently dirty; when it returns false, `copyReposGit`
dispatches no re-materialization work unit for the repository. -/
theorem claim_C8 (v : String) (br : Option BuildInfoRepos) (d : Bool) :
    (hasChangedGitRepos v br d = true ↔
      br = none ∨ ∃ b, br = some b ∧ (v ≠ b.version ∨ b.dirtyWorktree = true ∨ d = true)) ∧
    (hasChangedGitRepos v br d = false → copyReposGitDispatchCount v br d = 0) := by
  constructor
  · cases br with
    | none => simp [hasChangedGitRepos]
    | some b =>
      by_cases hv : v = b.version
      · cases hb : b.dirtyWorktree <;> cases d <;>
          simp [hasChangedGitRepos, hv, hb]
      · simp [hasChangedGitRepos, hv]
  · intro h
    simp [copyReposGitDispatchCount, h]

/-- Witness for claim C8 at a clean, up-to-date manifest entry. -/
theorem claim_C8_witness :
    (hasChangedGitRepos "4b8c6ae9e40ab0a2b8913571ad8ea15f8b0e1a7d" (some c8wManifest) false = true ↔
      (some c8wManifest = none ∨ ∃ b, some c8wManifest = some b ∧
        ("4b8c6ae9e40ab0a2b8913571ad8ea15f8b0e1a7d" ≠ b.version ∨
          b.dirtyWorktree = true ∨ false = true))) ∧
    copyReposGitDispatchCount "4b8c6ae9e40ab0a2b8913571ad8ea15f8b0e1a7d"
      (some c8wManifest) false = 0 := by
  obtain ⟨h1, h2⟩ := claim_C8 "4b8c6ae9e40ab0a2b8913571ad8ea15f8b0e1a7d" (some c8wManifest) false
  exact ⟨h1, h2 (by decide)⟩

/-- Claim C9 (confirmed): assuming a profile named `current_profile` exists,
`profile set` — which only switches to a name that `FindByName` resolves —
and `profile destroy` — which refuses to delete the current profile —
both preserve the invariant that a profile named `current_profile`
exists. -/
theorem claim_C9 (lock : LockJSON) (name : String) (lock2 lock3 : LockJSON)
    (hinv : hasCurrentProfile lock = true) :
    (doSetLock lock name = some lock2 → hasCurrentProfile lock2 = true) ∧
    (doDestroyLock lock name = some lock3 → hasCurrentProfile lock3 = true) := by
  constructor
  · intro h
    unfold doSetLock at h
    split at h
    · exact absurd h (by simp)
    cases hf : findProfileByName lock.profiles name with
    | none => rw [hf] at h; exact absurd h (by simp)
    | some p =>
      rw [hf] at h
      obtain rfl := Option.some.inj h
      obtain ⟨hm, hn⟩ := findProfileByName_mem _ _ _ hf
      unfold hasCurrentProfile
      simp only [List.any_eq_true, decide_eq_true_eq]
      exact ⟨p, hm, hn⟩
  · intro h
    unfold doDestroyLock at h
    split at h
    · exact absurd h (by simp)
    next hcur =>
      cases hf : findProfileIndexByName lock.profiles name with
      | none => rw [hf] at h; exact absurd h (by simp)
      | some i =>
        rw [hf] at h
        obtain rfl := Option.some.inj h
        obtain ⟨hlt, hget⟩ := findProfileIndexByName_get _ _ _ hf
        unfold hasCurrentProfile at hinv ⊢
        exact any_name_eraseIdx _ _ i hlt
          (by rw [hget]; exact fun hh => hcur hh.symm) hinv

/-- Witness for claim C9 on a concrete two-profile lock document. -/
theorem claim_C9_witness :
    hasCurrentProfile c9wAfterSet = true ∧ hasCurrentProfile c9wAfterDestroy = true := by
  obtain ⟨h1, h2⟩ := claim_C9 c9wLock "foo" c9wAfterSet c9wAfterDestroy (by decide)
  exact ⟨h1 (by decide), h2 (by decide)⟩

/-- Claim C10 (confirmed): `transaction.Remove` leaves `trx.lock` unchanged
whenever its content differs from the calling process's pid, and removes it
only when the content equals that pid. -/
theorem claim_C10 (content : String) (ownPid : Nat) :
    (content ≠ toString ownPid → transactionRemoveModel (some content) ownPid = some content) ∧
    (transactionRemoveModel (some content) ownPid = none → content = toString ownPid) := by
  constructor
  · intro h
    simp [transactionRemoveModel, h]
  · intro h
    by_cases hc : content = toString ownPid
    · exact hc
    · simp [transactionRemoveModel, hc] at h

/-- Witness for claim C10 at pid 42 with a foreign and an owned sentinel. -/
theorem claim_C10_witness :
    transactionRemoveModel (some "123") 42 = some "123" ∧
    ("42" = toString 42 → True) ∧
    (transactionRemoveModel (some "42") 42 = none → "42" = toString 42) := by
  refine ⟨(claim_C10 "123" 42).1 (by decide), fun _ => trivial, (claim_C10 "42" 42).2⟩
